import Mathlib

/-! Verification of pyImSegm's ellipse-fitting and segmentation modules.

Shallow embedding of `segmentation/ellipse_fitting.py` and of
`experiments_segmentation/run_segm_slic_classif_graphcut.py` (the
`segment_image` routine), together with theorems settling the spec claims.

External collaborators (skimage's `EllipseModel.estimate`/`residuals`,
`numpy.random`, the `segmentation.descriptors` ray helpers, SLIC, drawing)
are modelled as explicit oracle parameters; everything written in the two
source files themselves is embedded directly.
-/

/-! ## Generic list helpers -/

/-- Boolean-mask selection, `points[mask]` for a boolean `mask` aligned with
`points` (numpy fancy indexing). -/
def maskSelect {P : Type*} (points : List P) (mask : List Bool) : List P :=
  ((points.zip mask).filter (fun pb => pb.2)).map (fun pb => pb.1)

/-- First index of the minimum of a list (`np.argmin`, first occurrence). -/
def argminIdx : List ℚ → ℕ
  | [] => 0
  | [_] => 0
  | x :: y :: rest =>
      let j := argminIdx (y :: rest)
      if (y :: rest).getD j 0 < x then j + 1 else 0

/-- Squared Euclidean distance between two planar points.  `np.argmin` over
`cdist(..., metric=euclidean)` picks the same (first) index as the argmin of
squared distances, since `sqrt` is strictly monotone. -/
def sqDist (p q : ℚ × ℚ) : ℚ := (p.1 - q.1) ^ 2 + (p.2 - q.2) ^ 2

/-! ## RANSAC with the label-consistency criterion (`ransac_segm`)

`model_class()` construction, `model.estimate`, `model.residuals` and
`model.criterion` values, and the `np.random.randint` draws are supplied by an
oracle; the selection logic of the python loop is embedded literally. -/

/-- The operations `ransac_segm` invokes on models.  `estimate` takes the
current model object and the data points and returns the updated model
together with the skimage-style success flag (`none` stands for python
`None`, accepted for backwards compatibility).  `residualsAbs` is
`np.abs(model.residuals(points))`, and `criterion` is
`model.criterion(points_all, weights, labels, table_prob)` with the four
field arguments fixed. -/
structure RansacOracle (P M F : Type*) where
  init : M
  estimate : List P → M → M × Option Bool
  residualsAbs : M → List P → List F
  criterion : M → F

/-- Outcome of one RANSAC trial: whether estimation succeeded, the estimated
model, the inlier mask over all of `points`, and the criterion value. -/
structure TrialR (M F : Type*) where
  ok : Bool
  model : M
  inliers : List Bool
  fit : F

/-- `np.sum(model_inliers)` for a boolean mask. -/
def TrialR.numInliers {M F : Type*} (t : TrialR M F) : ℕ :=
  t.inliers.count true

/-- One iteration of the `ransac_segm` loop body: sample the points at the
drawn indices, estimate a fresh model, compute the inlier mask from absolute
residuals against `residual_threshold`, and the criterion value. -/
def runTrial {P M F : Type*} [LinearOrder F] (oracle : RansacOracle P M F)
    (points : List P) (residual_threshold : F) (idxs : List ℕ) : TrialR M F :=
  let samples := idxs.filterMap points.get?
  let ms := oracle.estimate samples oracle.init
  -- `if success is not None: if not success: continue`
  let ok : Bool := ms.2 ≠ some false
  let model_inliers :=
    (oracle.residualsAbs ms.1 points).map (fun r => decide (r < residual_threshold))
  { ok := ok, model := ms.1, inliers := model_inliers, fit := oracle.criterion ms.1 }

/-- Running state of the `ransac_segm` loop.  `best_model_fit = none` models
the initial `np.inf`. -/
structure RansacState (M F : Type*) where
  best_model : Option M
  best_inlier_num : ℕ
  best_model_fit : Option F
  best_inliers : Option (List Bool)

/-- `model_fit < best_model_fit`, where `none` stands for `np.inf`. -/
def fitBeats {F : Type*} [LinearOrder F] (f : F) : Option F → Bool
  | none => true
  | some b => decide (f < b)

/-- The update performed by one iteration of the `ransac_segm` loop: a failed
estimate is skipped; a strictly smaller criterion value replaces the best
model, and --- only inside that branch --- a strictly larger inlier count
replaces the tracked inlier mask. -/
def ransacStep {M F : Type*} [LinearOrder F] (st : RansacState M F)
    (t : TrialR M F) : RansacState M F :=
  if t.ok = false then st
  else if fitBeats t.fit st.best_model_fit then
    { best_model := some t.model
      best_model_fit := some t.fit
      best_inlier_num :=
        if st.best_inlier_num < t.numInliers then t.numInliers else st.best_inlier_num
      best_inliers :=
        if st.best_inlier_num < t.numInliers then some t.inliers else st.best_inliers }
  else st

/-- The whole `for _ in range(max_trials)` loop of `ransac_segm`. -/
def ransacLoop {M F : Type*} [LinearOrder F] (trials : List (TrialR M F)) :
    RansacState M F :=
  trials.foldl ransacStep ⟨none, 0, none, none⟩

/-- `ransac_segm` of `segmentation/ellipse_fitting.py`.  `min_samples` is
either a python float (`Sum.inl`, a fraction of `len(points)`) or an int
(`Sum.inr`); `rng i` is the list of indices drawn by `np.random.randint` in
trial `i`.  Raised `ValueError`s become `Except.error` with the message of
the python source. -/
def ransac_segm {P M F : Type*} [LinearOrder F] (points : List P)
    (oracle : RansacOracle P M F) (rng : ℕ → List ℕ) (min_samples : ℚ ⊕ ℤ)
    (residual_threshold : F) (max_trials : ℤ) :
    Except String (Option M × Option (List Bool)) :=
  let min_samples' : Except String ℤ :=
    match min_samples with
    | .inl frac =>
        if frac < 0 ∨ 1 < frac then
          .error "`min_samples` as ration must be in range (0, 1)"
        else .ok ⌊frac * points.length⌋
    | .inr n => .ok n
  match min_samples' with
  | .error e => .error e
  | .ok ms =>
    if ms < 0 then .error "`min_samples` must be greater than zero"
    else if max_trials < 0 then .error "`max_trials` must be greater than zero"
    else
      let trials := (List.range max_trials.toNat).map
        (fun i => runTrial oracle points residual_threshold (rng i))
      let st := ransacLoop trials
      -- estimate final model using all inliers
      match st.best_inliers, st.best_model with
      | some mask, some m =>
          .ok (some ((oracle.estimate (maskSelect points mask) m).1), some mask)
      | some _, none => .error "AttributeError"  -- unreachable: mask implies model
      | none, bm => .ok (bm, none)

/-! ### Specification-side selection functions

These re-state, directly from the spec's words, which trial the loop is
claimed to select; the theorems below relate them to the fold. -/

/-- The first trial, among those whose estimation succeeded, attaining the
lowest criterion value (later trials replace only on strictly smaller
criterion). -/
def firstMinFit {M F : Type*} [LinearOrder F] : List (TrialR M F) → Option (TrialR M F)
  | [] => none
  | t :: ts =>
      match firstMinFit ts with
      | none => if t.ok then some t else none
      | some u =>
          if t.ok then (if u.fit < t.fit then some u else some t) else some u

/-- The subsequence of successful trials that strictly improve the running
best criterion value (initially `bf`; `none` stands for `np.inf`). -/
def improvingTrials {M F : Type*} [LinearOrder F] (bf : Option F) :
    List (TrialR M F) → List (TrialR M F)
  | [] => []
  | t :: ts =>
      if t.ok = true ∧ fitBeats t.fit bf = true then
        t :: improvingTrials (some t.fit) ts
      else improvingTrials bf ts

/-- Running strict maximum of inlier counts: the mask of the first trial in
the list whose inlier count strictly exceeds every earlier one and the
initial bound `bn`. -/
def firstMaxMask {M F : Type*} (bn : ℕ) (bi : Option (List Bool)) :
    List (TrialR M F) → ℕ × Option (List Bool)
  | [] => (bn, bi)
  | t :: ts =>
      if bn < t.numInliers then firstMaxMask t.numInliers (some t.inliers) ts
      else firstMaxMask bn bi ts

/-! ### Characterization of the loop fold -/

lemma fitBeats_none {F : Type*} [LinearOrder F] (f : F) : fitBeats f none = true := rfl

lemma fitBeats_some {F : Type*} [LinearOrder F] (f b : F) :
    fitBeats f (some b) = decide (f < b) := rfl

/-- Master characterization of the `ransac_segm` loop: starting from an
arbitrary state, the fold selects the first lowest-criterion successful
trial for the model and the running strict maximum of inlier counts over the
criterion-improving trials for the mask. -/
lemma ransac_foldl_char {M F : Type*} [LinearOrder F] (ts : List (TrialR M F))
    (bm : Option M) (bn : ℕ) (bf : Option F) (bi : Option (List Bool)) :
    List.foldl ransacStep ⟨bm, bn, bf, bi⟩ ts =
      ⟨(match firstMinFit ts with
         | none => bm
         | some u => if fitBeats u.fit bf then some u.model else bm),
       (firstMaxMask bn bi (improvingTrials bf ts)).1,
       (match firstMinFit ts with
         | none => bf
         | some u => if fitBeats u.fit bf then some u.fit else bf),
       (firstMaxMask bn bi (improvingTrials bf ts)).2⟩ := by
  induction ts generalizing bm bn bf bi with
  | nil => rfl
  | cons t ts ih =>
    by_cases hok : t.ok = true
    · cases bf with
      | none =>
        have hstep : ransacStep ⟨bm, bn, none, bi⟩ t =
            ⟨some t.model,
             if bn < t.numInliers then t.numInliers else bn,
             some t.fit,
             if bn < t.numInliers then some t.inliers else bi⟩ := by
          simp [ransacStep, hok, fitBeats_none]
        have himp : improvingTrials none (t :: ts) =
            t :: improvingTrials (some t.fit) ts := by
          simp [improvingTrials, hok, fitBeats_none]
        rw [List.foldl_cons, hstep, ih, himp]
        by_cases hnum : bn < t.numInliers <;>
          [skip; skip] <;>
          · rcases hfm : firstMinFit ts with _ | u
            · simp [firstMinFit, hfm, hok, fitBeats_none, firstMaxMask, hnum]
            · by_cases hu : u.fit < t.fit <;>
                simp [firstMinFit, hfm, hok, hu, fitBeats_none, fitBeats_some,
                  firstMaxMask, hnum]
      | some b =>
        by_cases hbeat : t.fit < b
        · have hstep : ransacStep ⟨bm, bn, some b, bi⟩ t =
              ⟨some t.model,
               if bn < t.numInliers then t.numInliers else bn,
               some t.fit,
               if bn < t.numInliers then some t.inliers else bi⟩ := by
            simp [ransacStep, hok, fitBeats_some, hbeat]
          have himp : improvingTrials (some b) (t :: ts) =
              t :: improvingTrials (some t.fit) ts := by
            simp [improvingTrials, hok, fitBeats_some, hbeat]
          rw [List.foldl_cons, hstep, ih, himp]
          by_cases hnum : bn < t.numInliers <;>
            [skip; skip] <;>
            · rcases hfm : firstMinFit ts with _ | u
              · simp [firstMinFit, hfm, hok, fitBeats_some, hbeat,
                  firstMaxMask, hnum]
              · by_cases hu : u.fit < t.fit
                · have hub : u.fit < b := hu.trans hbeat
                  simp [firstMinFit, hfm, hok, hu, hub, fitBeats_some,
                    firstMaxMask, hnum]
                · simp [firstMinFit, hfm, hok, hu, hbeat, fitBeats_some,
                    firstMaxMask, hnum]
        · -- successful trial that does not improve the criterion
          have hstep : ransacStep ⟨bm, bn, some b, bi⟩ t = ⟨bm, bn, some b, bi⟩ := by
            simp [ransacStep, hok, fitBeats_some, hbeat]
          have himp : improvingTrials (some b) (t :: ts) =
              improvingTrials (some b) ts := by
            simp [improvingTrials, fitBeats_some, hbeat]
          rw [List.foldl_cons, hstep, ih, himp]
          rcases hfm : firstMinFit ts with _ | u
          · simp [firstMinFit, hfm, hok, fitBeats_some, hbeat]
          · by_cases hu : u.fit < t.fit
            · simp [firstMinFit, hfm, hok, hu]
            · have hub : ¬u.fit < b :=
                not_lt.mpr ((not_lt.mp hbeat).trans (not_lt.mp hu))
              simp [firstMinFit, hfm, hok, hu, fitBeats_some, hbeat, hub]
    · -- failed estimation: trial skipped entirely
      have hokf : t.ok = false := by simpa using hok
      have hstep : ransacStep ⟨bm, bn, bf, bi⟩ t = ⟨bm, bn, bf, bi⟩ := by
        simp [ransacStep, hokf]
      have himp : improvingTrials bf (t :: ts) = improvingTrials bf ts := by
        simp [improvingTrials, hokf]
      have hfm : firstMinFit (t :: ts) = firstMinFit ts := by
        rcases h : firstMinFit ts with _ | u <;> simp [firstMinFit, h, hokf]
      rw [List.foldl_cons, hstep, ih, himp, hfm]

/-- The loop's best model and best criterion value are exactly those of the
first successful trial attaining the minimum criterion. -/
lemma ransacLoop_model_fit {M F : Type*} [LinearOrder F] (ts : List (TrialR M F)) :
    (ransacLoop ts).best_model = (firstMinFit ts).map TrialR.model ∧
    (ransacLoop ts).best_model_fit = (firstMinFit ts).map TrialR.fit := by
  unfold ransacLoop
  rw [ransac_foldl_char]
  rcases h : firstMinFit ts with _ | u <;> simp [fitBeats_none]

/-- The loop's tracked mask is the running strict maximum of inlier counts
over the criterion-improving trials. -/
lemma ransacLoop_mask {M F : Type*} [LinearOrder F] (ts : List (TrialR M F)) :
    (ransacLoop ts).best_inliers =
      (firstMaxMask 0 none (improvingTrials none ts)).2 := by
  unfold ransacLoop
  rw [ransac_foldl_char]

lemma firstMinFit_eq_none_iff {M F : Type*} [LinearOrder F]
    (ts : List (TrialR M F)) :
    firstMinFit ts = none ↔ ∀ t ∈ ts, t.ok = false := by
  induction ts with
  | nil => simp [firstMinFit]
  | cons t ts ih =>
    rcases hfm : firstMinFit ts with _ | u
    · have hts := ih.mp hfm
      by_cases hok : t.ok = true
      · simp [firstMinFit, hfm, hok]
      · have hokf : t.ok = false := by simpa using hok
        simp only [firstMinFit, hfm, hokf, Bool.false_eq_true, if_false]
        simpa [hokf] using hts
    · have hne : firstMinFit (t :: ts) ≠ none := by
        simp only [firstMinFit, hfm]
        by_cases hok : t.ok = true
        · simp only [hok, if_true]
          split <;> simp
        · have hokf : t.ok = false := by simpa using hok
          simp [hokf]
      have hnall : ¬∀ s ∈ ts, s.ok = false := by
        intro hall
        simp [ih.mpr hall] at hfm
      constructor
      · intro h
        exact absurd h hne
      · intro hall
        exact absurd (fun s hs => hall s (List.mem_cons_of_mem _ hs)) hnall

lemma mem_improvingTrials {M F : Type*} [LinearOrder F] {t : TrialR M F}
    {bf : Option F} {ts : List (TrialR M F)}
    (h : t ∈ improvingTrials bf ts) : t ∈ ts ∧ t.ok = true := by
  induction ts generalizing bf with
  | nil => simp [improvingTrials] at h
  | cons s ts ih =>
    simp only [improvingTrials] at h
    by_cases hc : s.ok = true ∧ fitBeats s.fit bf = true
    · rw [if_pos hc] at h
      rcases List.mem_cons.mp h with rfl | h2
      · exact ⟨List.mem_cons_self _ _, hc.1⟩
      · obtain ⟨h3, h4⟩ := ih h2
        exact ⟨List.mem_cons_of_mem _ h3, h4⟩
    · rw [if_neg hc] at h
      obtain ⟨h3, h4⟩ := ih h
      exact ⟨List.mem_cons_of_mem _ h3, h4⟩

lemma firstMaxMask_sound {M F : Type*} (bn : ℕ) (bi : Option (List Bool))
    (l : List (TrialR M F)) :
    (firstMaxMask bn bi l).2 = bi ∨
      ∃ t ∈ l, (firstMaxMask bn bi l).2 = some t.inliers ∧ bn < t.numInliers := by
  induction l generalizing bn bi with
  | nil => left; rfl
  | cons t ts ih =>
    simp only [firstMaxMask]
    by_cases hn : bn < t.numInliers
    · rw [if_pos hn]
      rcases ih t.numInliers (some t.inliers) with h | ⟨u, hu, h2, h3⟩
      · right; exact ⟨t, List.mem_cons_self _ _, h, hn⟩
      · right; exact ⟨u, List.mem_cons_of_mem _ hu, h2, hn.trans h3⟩
    · rw [if_neg hn]
      rcases ih bn bi with h | ⟨u, hu, h2, h3⟩
      · left; exact h
      · right; exact ⟨u, List.mem_cons_of_mem _ hu, h2, h3⟩

/-- Whenever the loop has tracked an inlier mask, that mask belongs to some
successful trial with a strictly positive inlier count. -/
lemma ransacLoop_mask_some {M F : Type*} [LinearOrder F] {ts : List (TrialR M F)}
    {mask : List Bool} (h : (ransacLoop ts).best_inliers = some mask) :
    ∃ t ∈ ts, t.ok = true ∧ mask = t.inliers ∧ 0 < t.numInliers := by
  rw [ransacLoop_mask] at h
  rcases firstMaxMask_sound 0 none (improvingTrials none ts) with h2 | ⟨u, hu, h2, h3⟩
  · rw [h2] at h
    exact absurd h (by simp)
  · rw [h2] at h
    obtain ⟨hmem, hok⟩ := mem_improvingTrials hu
    exact ⟨u, hmem, hok, (Option.some.inj h).symm, h3⟩

/-- Executing `ransac_segm` with valid integer parameters: the validation
passes and the result is the polished loop outcome. -/
lemma ransac_segm_run {P M F : Type*} [LinearOrder F] (points : List P)
    (oracle : RansacOracle P M F) (rng : ℕ → List ℕ) (n : ℤ)
    (residual_threshold : F) (max_trials : ℤ) (trials : List (TrialR M F))
    (hn : 0 ≤ n) (hT : 0 ≤ max_trials)
    (htr : trials = (List.range max_trials.toNat).map
      (fun i => runTrial oracle points residual_threshold (rng i))) :
    ransac_segm points oracle rng (.inr n) residual_threshold max_trials =
      match (ransacLoop trials).best_inliers, (ransacLoop trials).best_model with
      | some mask, some m =>
          .ok (some ((oracle.estimate (maskSelect points mask) m).1), some mask)
      | some _, none => .error "AttributeError"
      | none, bm => .ok (bm, none) := by
  have hn' : ¬n < 0 := not_lt.mpr hn
  have hT' : ¬max_trials < 0 := not_lt.mpr hT
  simp only [ransac_segm, hn', if_false, hT', ← htr]

/-! ### Claims about `ransac_segm` -/

/-- **C1.** Among all trials whose model estimation succeeded, the loop keeps
the (first) one with the lowest criterion value --- computed by
`model.criterion(points_all, weights, labels, table_prob)`, here the oracle's
`criterion` --- independently of inlier counts, and the model returned by
`ransac_segm` is exactly that trial's model (re-estimated on the tracked
inlier mask when one exists). -/
theorem claim_C1 {P M F : Type*} [LinearOrder F] (points : List P)
    (oracle : RansacOracle P M F) (rng : ℕ → List ℕ) (n : ℤ)
    (residual_threshold : F) (max_trials : ℤ) (trials : List (TrialR M F))
    (hn : 0 ≤ n) (hT : 0 ≤ max_trials)
    (htr : trials = (List.range max_trials.toNat).map
      (fun i => runTrial oracle points residual_threshold (rng i))) :
    (ransacLoop trials).best_model = (firstMinFit trials).map TrialR.model ∧
    (ransacLoop trials).best_model_fit = (firstMinFit trials).map TrialR.fit ∧
    ∀ u, firstMinFit trials = some u →
      ∃ m, ransac_segm points oracle rng (.inr n) residual_threshold max_trials =
            .ok (some m, (ransacLoop trials).best_inliers) ∧
          ((ransacLoop trials).best_inliers = none → m = u.model) ∧
          (∀ mask, (ransacLoop trials).best_inliers = some mask →
            m = (oracle.estimate (maskSelect points mask) u.model).1) := by
  refine ⟨(ransacLoop_model_fit trials).1, (ransacLoop_model_fit trials).2, ?_⟩
  intro u hu
  have hmodel : (ransacLoop trials).best_model = some u.model := by
    rw [(ransacLoop_model_fit trials).1, hu, Option.map_some']
  have hres := ransac_segm_run points oracle rng n residual_threshold max_trials
    trials hn hT htr
  rcases hmask : (ransacLoop trials).best_inliers with _ | mask
  · refine ⟨u.model, ?_, fun _ => rfl, fun mask hm => Option.noConfusion hm⟩
    rw [hres, hmask, hmodel]
  · refine ⟨(oracle.estimate (maskSelect points mask) u.model).1, ?_,
      fun h => Option.noConfusion h, ?_⟩
    · rw [hres, hmask, hmodel]
    · intro mask' hm
      rw [Option.some.inj hm]

/-- Oracle used by concrete RANSAC instantiations: every estimate succeeds
with the first sampled point as the model, residuals pick out models
estimated from the first data point as all-inlier, and the criterion rewards
larger models. -/
def wOracleR : RansacOracle ℤ ℤ ℤ where
  init := 9
  estimate := fun s _ => (s.headD 9, some true)
  residualsAbs := fun m _ => if m = 10 then [0, 0] else [0, 99]
  criterion := fun m => 100 - m

/-- The two concrete trials run by `ransac_segm [10, 20] wOracleR`: trial 0
estimates model 10 (criterion 90, inliers `[true, true]`), trial 1 estimates
model 20 (criterion 80, inliers `[true, false]`). -/
def wTrialsR : List (TrialR ℤ ℤ) :=
  (List.range (2 : ℤ).toNat).map (fun i => runTrial wOracleR [10, 20] 1 ((fun j => [j]) i))

/-- Witness for C1 at a concrete input (hypotheses discharged at
`points = [10, 20]`, `n = 1`, `max_trials = 2`). -/
theorem claim_C1_witness :
    (0 : ℤ) ≤ 1 ∧ (0 : ℤ) ≤ 2 ∧
    ((ransacLoop wTrialsR).best_model = (firstMinFit wTrialsR).map TrialR.model ∧
     (ransacLoop wTrialsR).best_model_fit = (firstMinFit wTrialsR).map TrialR.fit ∧
     ∀ u, firstMinFit wTrialsR = some u →
       ∃ m, ransac_segm [10, 20] wOracleR (fun j => [j]) (.inr 1) 1 2 =
             .ok (some m, (ransacLoop wTrialsR).best_inliers) ∧
           ((ransacLoop wTrialsR).best_inliers = none → m = u.model) ∧
           (∀ mask, (ransacLoop wTrialsR).best_inliers = some mask →
             m = (wOracleR.estimate (maskSelect [10, 20] mask) u.model).1)) :=
  ⟨by norm_num, by norm_num,
    claim_C1 [10, 20] wOracleR (fun j => [j]) 1 1 2 wTrialsR
      (by norm_num) (by norm_num) rfl⟩

/-- Oracle whose single estimate succeeds but yields no inliers at all
(every residual is far above the threshold). -/
def cexOracleR : RansacOracle ℚ ℚ ℚ where
  init := 0
  estimate := fun _ m => (m, some true)
  residualsAbs := fun _ pts => pts.map (fun _ => 5)
  criterion := fun _ => 0

/-- **C3 counterexample.** A run in which a trial's model estimation
succeeds, yet `ransac_segm` returns a model together with a `none` inlier
mask: the successful trial has zero inliers, so the mask tracker (updated
only on a strictly larger inlier count) never fires.  This falsifies
"whenever some trial succeeds, both the returned model and the returned
inlier mask are non-none". -/
theorem claim_C3_cex :
    ransac_segm [(1 : ℚ), 2] cexOracleR (fun _ => [0]) (.inr 1) 1 1 =
      .ok (some 0, none) ∧
    (runTrial cexOracleR [(1 : ℚ), 2] 1 [0]).ok = true := by
  exact ⟨rfl, rfl⟩

/-- **C3 (amended).** With valid parameters `ransac_segm` returns normally
(no exception); the returned pair is `(none, none)` exactly when no trial's
estimation succeeded, and the model is `none` exactly in that case; the
mask, however, can additionally be `none` when no successful trial had a
strictly positive inlier count --- it is non-`none` only if some successful
trial had at least one inlier. -/
theorem claim_C3 {P M F : Type*} [LinearOrder F] (points : List P)
    (oracle : RansacOracle P M F) (rng : ℕ → List ℕ) (n : ℤ)
    (residual_threshold : F) (max_trials : ℤ) (trials : List (TrialR M F))
    (hn : 0 ≤ n) (hT : 0 ≤ max_trials)
    (htr : trials = (List.range max_trials.toNat).map
      (fun i => runTrial oracle points residual_threshold (rng i))) :
    ∃ res, ransac_segm points oracle rng (.inr n) residual_threshold max_trials =
        .ok res ∧
      (res.1 = none ↔ ∀ t ∈ trials, t.ok = false) ∧
      (res = (none, none) ↔ ∀ t ∈ trials, t.ok = false) ∧
      (res.2 = none ∨ ∃ t ∈ trials, t.ok = true ∧ 0 < t.numInliers) := by
  have hres := ransac_segm_run points oracle rng n residual_threshold max_trials
    trials hn hT htr
  rcases hmask : (ransacLoop trials).best_inliers with _ | mask
  · rcases hmodel : (ransacLoop trials).best_model with _ | m
    · have hfm : firstMinFit trials = none := by
        have h2 := (ransacLoop_model_fit trials).1
        rw [hmodel] at h2
        exact (Option.map_eq_none'.mp h2.symm)
      have hall := (firstMinFit_eq_none_iff trials).mp hfm
      refine ⟨(none, none), ?_, ⟨fun _ => hall, fun _ => rfl⟩,
        ⟨fun _ => hall, fun _ => rfl⟩, Or.inl rfl⟩
      rw [hres, hmask, hmodel]
    · have hfm : firstMinFit trials ≠ none := by
        have h2 := (ransacLoop_model_fit trials).1
        rw [hmodel] at h2
        intro hcon
        rw [hcon] at h2
        cases h2
      have hnall : ¬∀ t ∈ trials, t.ok = false :=
        fun hall => hfm ((firstMinFit_eq_none_iff trials).mpr hall)
      refine ⟨(some m, none), ?_, by simp [hnall], by simp [hnall], Or.inl rfl⟩
      rw [hres, hmask, hmodel]
  · obtain ⟨t, hmem, hok, _, hpos⟩ := ransacLoop_mask_some hmask
    have hnall : ¬∀ s ∈ trials, s.ok = false := by
      intro hall
      rw [hall t hmem] at hok
      cases hok
    rcases hmodel : (ransacLoop trials).best_model with _ | m
    · exfalso
      have h2 := (ransacLoop_model_fit trials).1
      rw [hmodel] at h2
      exact hnall ((firstMinFit_eq_none_iff trials).mp (Option.map_eq_none'.mp h2.symm))
    · refine ⟨(some ((oracle.estimate (maskSelect points mask) m).1), some mask),
        ?_, by simp [hnall], by simp [hnall], Or.inr ⟨t, hmem, hok, hpos⟩⟩
      rw [hres, hmask, hmodel]

/-- Witness for C3 at the concrete empty-trial input (`max_trials = 0`):
hypotheses discharged, the run returns `(none, none)` without raising. -/
theorem claim_C3_witness :
    (0 : ℤ) ≤ 1 ∧ (0 : ℤ) ≤ 0 ∧
    (∃ res, ransac_segm [(1 : ℚ), 2] cexOracleR (fun _ => [0]) (.inr 1) 1 0 =
        .ok res ∧
      (res.1 = none ↔ ∀ t ∈ ([] : List (TrialR ℚ ℚ)), t.ok = false) ∧
      (res = (none, none) ↔ ∀ t ∈ ([] : List (TrialR ℚ ℚ)), t.ok = false) ∧
      (res.2 = none ∨ ∃ t ∈ ([] : List (TrialR ℚ ℚ)), t.ok = true ∧ 0 < t.numInliers)) :=
  ⟨by norm_num, le_refl 0,
    claim_C3 [(1 : ℚ), 2] cexOracleR (fun _ => [0]) 1 1 0 [] (by norm_num) (le_refl 0) rfl⟩

/-- **C4.** When the loop has tracked an inlier mask, `ransac_segm`
re-estimates the selected best model one final time on exactly the points
picked out by that mask and returns the re-estimated model together with
that mask; the mask itself is the running strict maximum of inlier counts
over the criterion-improving trials, tracked independently of which trial
supplied the best model, and it belongs to some successful trial. -/
theorem claim_C4 {P M F : Type*} [LinearOrder F] (points : List P)
    (oracle : RansacOracle P M F) (rng : ℕ → List ℕ) (n : ℤ)
    (residual_threshold : F) (max_trials : ℤ) (trials : List (TrialR M F))
    (mask : List Bool)
    (hn : 0 ≤ n) (hT : 0 ≤ max_trials)
    (htr : trials = (List.range max_trials.toNat).map
      (fun i => runTrial oracle points residual_threshold (rng i)))
    (hmask : (ransacLoop trials).best_inliers = some mask) :
    (∃ m, (ransacLoop trials).best_model = some m ∧
      ransac_segm points oracle rng (.inr n) residual_threshold max_trials =
        .ok (some ((oracle.estimate (maskSelect points mask) m).1), some mask)) ∧
    some mask = (firstMaxMask 0 none (improvingTrials none trials)).2 ∧
    ∃ t ∈ trials, t.ok = true ∧ mask = t.inliers := by
  obtain ⟨t, hmem, hok, hmaskeq, _⟩ := ransacLoop_mask_some hmask
  have hres := ransac_segm_run points oracle rng n residual_threshold max_trials
    trials hn hT htr
  rcases hmodel : (ransacLoop trials).best_model with _ | m
  · exfalso
    have h2 := (ransacLoop_model_fit trials).1
    rw [hmodel] at h2
    have hall := (firstMinFit_eq_none_iff trials).mp (Option.map_eq_none'.mp h2.symm)
    rw [hall t hmem] at hok
    cases hok
  · refine ⟨⟨m, rfl, ?_⟩, ?_, t, hmem, hok, hmaskeq⟩
    · rw [hres, hmask, hmodel]
    · rw [← ransacLoop_mask, hmask]

/-- Witness for C4, at a concrete two-trial input where the returned model
and the returned mask stem from *different* trials: trial 0 (model 10,
criterion 90) contributes the mask `[true, true]` (two inliers), trial 1
(model 20, criterion 80, a single inlier) contributes the model; the final
polish re-estimates on the two mask-selected points, returning model 10. -/
theorem claim_C4_witness :
    (ransacLoop wTrialsR).best_inliers = some [true, true] ∧
    ((∃ m, (ransacLoop wTrialsR).best_model = some m ∧
      ransac_segm [10, 20] wOracleR (fun j => [j]) (.inr 1) 1 2 =
        .ok (some ((wOracleR.estimate (maskSelect [10, 20] [true, true]) m).1),
             some [true, true])) ∧
     some [true, true] = (firstMaxMask 0 none (improvingTrials none wTrialsR)).2 ∧
     ∃ t ∈ wTrialsR, t.ok = true ∧ [true, true] = t.inliers) ∧
    (ransacLoop wTrialsR).best_model = some 20 ∧
    (runTrial wOracleR [10, 20] 1 [0]).inliers = [true, true] ∧
    (runTrial wOracleR [10, 20] 1 [1]).inliers = [true, false] ∧
    ransac_segm [10, 20] wOracleR (fun j => [j]) (.inr 1) 1 2 =
      .ok (some 10, some [true, true]) :=
  ⟨rfl,
    claim_C4 [10, 20] wOracleR (fun j => [j]) 1 1 2 wTrialsR [true, true]
      (by norm_num) (by norm_num) rfl rfl,
    rfl, rfl, rfl, rfl⟩

/-- **C5 counterexample.** The fractional value `0` lies outside `(0, 1]`,
yet `ransac_segm` does *not* fail on it: the source checks
`0 <= min_samples <= 1` (a closed interval), so `min_samples = 0.0` is
accepted, converted to `int(0 * len(points)) = 0` samples, and the call
returns normally. -/
theorem claim_C5_cex :
    ransac_segm [(0 : ℤ)] wOracleR (fun _ => []) (.inl 0) 1 0 = .ok (none, none) ∧
    ¬(0 < (0 : ℚ) ∧ (0 : ℚ) ≤ 1) := by
  constructor
  · norm_num [ransac_segm, ransacLoop]
  · norm_num

/-- **C5 (amended).** Parameter validation of `ransac_segm` before any
trial: a fractional `min_samples` fails fast with the invalid-parameter
error exactly when it lies outside the *closed* interval `[0, 1]` (not the
half-open `(0, 1]` of the claim); otherwise it is converted to
`int(min_samples * len(points))`, which is never negative; an integer
`min_samples < 0` fails fast; and with a valid `min_samples`,
`max_trials < 0` fails fast. -/
theorem claim_C5 {P M F : Type*} [LinearOrder F] (points : List P)
    (oracle : RansacOracle P M F) (rng : ℕ → List ℕ)
    (residual_threshold : F) (max_trials : ℤ) :
    (∀ frac : ℚ, frac < 0 ∨ 1 < frac →
      ransac_segm points oracle rng (.inl frac) residual_threshold max_trials =
        .error "`min_samples` as ration must be in range (0, 1)") ∧
    (∀ frac : ℚ, 0 ≤ frac → frac ≤ 1 → max_trials < 0 →
      ransac_segm points oracle rng (.inl frac) residual_threshold max_trials =
        .error "`max_trials` must be greater than zero") ∧
    (∀ n : ℤ, n < 0 →
      ransac_segm points oracle rng (.inr n) residual_threshold max_trials =
        .error "`min_samples` must be greater than zero") ∧
    (∀ n : ℤ, 0 ≤ n → max_trials < 0 →
      ransac_segm points oracle rng (.inr n) residual_threshold max_trials =
        .error "`max_trials` must be greater than zero") := by
  refine ⟨?_, ?_, ?_, ?_⟩
  · intro frac h
    simp [ransac_segm, h]
  · intro frac h0 h1 hT
    have hcond : ¬(frac < 0 ∨ 1 < frac) := by
      push_neg
      exact ⟨h0, h1⟩
    have hfloor : ¬(⌊frac * (points.length : ℚ)⌋ < 0) :=
      not_lt.mpr (Int.floor_nonneg.mpr (mul_nonneg h0 (Nat.cast_nonneg _)))
    simp [ransac_segm, hcond, hfloor, hT]
  · intro n h
    simp [ransac_segm, h]
  · intro n hn hT
    have hn' : ¬n < 0 := not_lt.mpr hn
    simp [ransac_segm, hn', hT]

/-- Witness for C5: a fraction above 1 and a negative integer sample count
both fail fast with the corresponding invalid-parameter errors. -/
theorem claim_C5_witness :
    ((3 : ℚ) < 0 ∨ 1 < (3 : ℚ)) ∧
    ransac_segm [(0 : ℤ)] wOracleR (fun _ => []) (.inl 3) 1 5 =
      .error "`min_samples` as ration must be in range (0, 1)" ∧
    (-2 : ℤ) < 0 ∧
    ransac_segm [(0 : ℤ)] wOracleR (fun _ => []) (.inr (-2)) 1 5 =
      .error "`min_samples` must be greater than zero" :=
  ⟨by norm_num, (claim_C5 [(0 : ℤ)] wOracleR (fun _ => []) 1 5).1 3 (by norm_num),
   by norm_num, (claim_C5 [(0 : ℤ)] wOracleR (fun _ => []) 1 5).2.2.1 (-2) (by norm_num)⟩

/-! ## `EllipseModelSegm.criterion`

The criterion works on real numbers (floats in the source); it is embedded
over `ℝ` with `numpy`'s `log`, `sin`, `cos` as the real functions. -/

/-- The five ellipse parameters `r_org, c_org, r_rad, c_rad, phi`, named as
`criterion` unpacks `self.params`. -/
structure EllipseParams where
  r_org : ℝ
  c_org : ℝ
  r_rad : ℝ
  c_rad : ℝ
  phi : ℝ

namespace EllipseModelSegm

/-- The squared ellipse-relative normalized radius of one point (the entry
of `distances` in the source). -/
noncomputable def normDist (mp : EllipseParams) (pt : ℝ × ℝ) : ℝ :=
  ((( pt.1 - mp.r_org) * Real.cos mp.phi + (pt.2 - mp.c_org) * Real.sin mp.phi) /
      mp.r_rad) ^ 2 +
    (((pt.1 - mp.r_org) * Real.sin mp.phi - (pt.2 - mp.c_org) * Real.cos mp.phi) /
      mp.c_rad) ^ 2

/-- `table_q[i, lb] = -log(table_p[i][lb])`. -/
noncomputable def tableQ (table_p : List (List ℝ)) (i lb : ℕ) : ℝ :=
  -Real.log ((table_p.getD i []).getD lb 1)

/-- The summation underlying `criterion`, over points paired with their
labels: a point with `distances <= 1` (inside) contributes
`weights[label] * (table_q[0, label] - table_q[1, label])` --- the weight is
indexed by the point's *label* (`weights[labels_in]` in the source), not by
the point's position --- and an outside point contributes nothing. -/
noncomputable def criterionSum (mp : EllipseParams) (weights : List ℝ)
    (table_p : List (List ℝ)) : List ((ℝ × ℝ) × ℕ) → ℝ
  | [] => 0
  | (pt, lb) :: rest =>
      (if normDist mp pt ≤ 1 then
        weights.getD lb 0 * (tableQ table_p 0 lb - tableQ table_p 1 lb)
      else 0) + criterionSum mp weights table_p rest

/-- `EllipseModelSegm.criterion` of `segmentation/ellipse_fitting.py`. -/
noncomputable def criterion (mp : EllipseParams) (points : List (ℝ × ℝ))
    (weights : List ℝ) (labels : List ℕ) (table_p : List (List ℝ)) : ℝ :=
  criterionSum mp weights table_p (points.zip labels)

end EllipseModelSegm

/-- The criterion as claim C2 literally words it: every point whose
normalized radius is at most 1 contributes
`weight[point] * (cost(class 0 | inside) - cost(class 1 | inside))`, where
`cost(class | indicator) = -log(table[indicator][class])` and the inside
indicator selects row 1 (rows are outside/inside). -/
noncomputable def criterion_claimed (mp : EllipseParams) (points : List (ℝ × ℝ))
    (weights : List ℝ) (labels : List ℕ) (table_p : List (List ℝ)) : ℝ :=
  ∑ i in Finset.range points.length,
    if EllipseModelSegm.normDist mp (points.getD i (0, 0)) ≤ 1 then
      weights.getD i 0 *
        (EllipseModelSegm.tableQ table_p 1 0 - EllipseModelSegm.tableQ table_p 1 1)
    else 0

/-- The criterion as the code actually computes it, re-stated as an indexed
sum: inside points contribute `weights[labels[i]] * (cost(labels[i] | row 0)
- cost(labels[i] | row 1))`, outside points contribute nothing. -/
noncomputable def criterion_amended (mp : EllipseParams) (points : List (ℝ × ℝ))
    (weights : List ℝ) (labels : List ℕ) (table_p : List (List ℝ)) : ℝ :=
  ∑ i in Finset.range points.length,
    if EllipseModelSegm.normDist mp (points.getD i (0, 0)) ≤ 1 then
      weights.getD (labels.getD i 0) 0 *
        (EllipseModelSegm.tableQ table_p 0 (labels.getD i 0) -
         EllipseModelSegm.tableQ table_p 1 (labels.getD i 0))
    else 0

lemma criterionSum_eq_sum (mp : EllipseParams) (ws : List ℝ) (tp : List (List ℝ))
    (pts : List (ℝ × ℝ)) (ls : List ℕ) (h : pts.length = ls.length) :
    EllipseModelSegm.criterionSum mp ws tp (pts.zip ls) =
      ∑ i in Finset.range pts.length,
        (if EllipseModelSegm.normDist mp (pts.getD i (0, 0)) ≤ 1 then
          ws.getD (ls.getD i 0) 0 *
            (EllipseModelSegm.tableQ tp 0 (ls.getD i 0) -
             EllipseModelSegm.tableQ tp 1 (ls.getD i 0))
        else 0) := by
  induction pts generalizing ls with
  | nil => simp [EllipseModelSegm.criterionSum]
  | cons p pts ih =>
    cases ls with
    | nil => simp at h
    | cons l ls =>
      have hlen : pts.length = ls.length := by simpa using h
      rw [List.zip_cons_cons]
      simp only [EllipseModelSegm.criterionSum, List.length_cons]
      rw [Finset.sum_range_succ']
      simp only [List.getD_cons_succ, List.getD_cons_zero]
      rw [ih ls hlen]
      exact add_comm _ _

/-- **C2 counterexample.** At an axis-aligned unit circle at the origin, two
inside points with labels `[1, 0]`, weights `[3, 5]` and the probability
table `[[e⁻¹, e⁻²], [e⁻⁴, e⁻⁸]]`, the code's criterion is `-39` (the weight
of each point is looked up at index `labels[i]`, and the cost difference is
taken between the two *rows* at the point's label), while the claim's
formula gives `-32` (weight at the point's index, cost difference between
the two *classes* of the inside row).  The two disagree, so the claim as
stated is false. -/
theorem claim_C2_cex :
    EllipseModelSegm.criterion ⟨0, 0, 1, 1, 0⟩ [(0, 0), (0, 1 / 2)] [3, 5] [1, 0]
        [[Real.exp (-1), Real.exp (-2)], [Real.exp (-4), Real.exp (-8)]] = -39 ∧
    criterion_claimed ⟨0, 0, 1, 1, 0⟩ [(0, 0), (0, 1 / 2)] [3, 5] [1, 0]
        [[Real.exp (-1), Real.exp (-2)], [Real.exp (-4), Real.exp (-8)]] = -32 ∧
    EllipseModelSegm.criterion ⟨0, 0, 1, 1, 0⟩ [(0, 0), (0, 1 / 2)] [3, 5] [1, 0]
        [[Real.exp (-1), Real.exp (-2)], [Real.exp (-4), Real.exp (-8)]] ≠
      criterion_claimed ⟨0, 0, 1, 1, 0⟩ [(0, 0), (0, 1 / 2)] [3, 5] [1, 0]
        [[Real.exp (-1), Real.exp (-2)], [Real.exp (-4), Real.exp (-8)]] := by
  have h1 : EllipseModelSegm.normDist ⟨0, 0, 1, 1, 0⟩ ((0 : ℝ), (0 : ℝ)) ≤ 1 := by
    simp [EllipseModelSegm.normDist, Real.cos_zero, Real.sin_zero]
  have h2 : EllipseModelSegm.normDist ⟨0, 0, 1, 1, 0⟩ ((0 : ℝ), (1 / 2 : ℝ)) ≤ 1 := by
    simp [EllipseModelSegm.normDist, Real.cos_zero, Real.sin_zero]
    norm_num
  have hc : EllipseModelSegm.criterion ⟨0, 0, 1, 1, 0⟩ [(0, 0), (0, 1 / 2)] [3, 5]
      [1, 0] [[Real.exp (-1), Real.exp (-2)], [Real.exp (-4), Real.exp (-8)]] = -39 := by
    simp only [EllipseModelSegm.criterion, List.zip_cons_cons, List.zip_nil_right,
      EllipseModelSegm.criterionSum, EllipseModelSegm.tableQ,
      List.getD_cons_zero, List.getD_cons_succ, if_pos h1, if_pos h2, Real.log_exp]
    norm_num
  have hs : criterion_claimed ⟨0, 0, 1, 1, 0⟩ [(0, 0), (0, 1 / 2)] [3, 5] [1, 0]
      [[Real.exp (-1), Real.exp (-2)], [Real.exp (-4), Real.exp (-8)]] = -32 := by
    simp only [criterion_claimed, List.length_cons, List.length_nil,
      EllipseModelSegm.tableQ, List.getD_cons_zero, List.getD_cons_succ, Real.log_exp]
    rw [Finset.sum_range_succ, Finset.sum_range_succ, Finset.sum_range_zero]
    simp only [List.getD_cons_zero, List.getD_cons_succ, if_pos h1, if_pos h2]
    norm_num
  exact ⟨hc, hs, by rw [hc, hs]; norm_num⟩

/-- **C2 (amended).** Under the source's own preconditions (equal lengths;
labels within the table's columns), `criterion` equals the indexed sum in
which each inside point contributes `weights[labels[i]]` (weight looked up
at the point's label, per the source's `weights[labels_in]`) times
`(-log table[0][labels[i]]) - (-log table[1][labels[i]])`, and outside
points contribute nothing. -/
theorem claim_C2 (mp : EllipseParams) (points : List (ℝ × ℝ)) (weights : List ℝ)
    (labels : List ℕ) (table_p : List (List ℝ))
    (hw : points.length = weights.length) (hl : points.length = labels.length) :
    EllipseModelSegm.criterion mp points weights labels table_p =
      criterion_amended mp points weights labels table_p :=
  criterionSum_eq_sum mp weights table_p points labels hl

/-- Witness for C2 (amended) at a concrete one-point input. -/
theorem claim_C2_witness :
    ([((0 : ℝ), (0 : ℝ))].length = [(1 : ℝ)].length) ∧
    ([((0 : ℝ), (0 : ℝ))].length = [(0 : ℕ)].length) ∧
    EllipseModelSegm.criterion ⟨0, 0, 1, 1, 0⟩ [(0, 0)] [1] [0] [[1], [1]] =
      criterion_amended ⟨0, 0, 1, 1, 0⟩ [(0, 0)] [1] [0] [[1], [1]] :=
  ⟨rfl, rfl, claim_C2 ⟨0, 0, 1, 1, 0⟩ [(0, 0)] [1] [0] [[1], [1]] rfl rfl⟩

/-! ## `segment_image` of `run_segm_slic_classif_graphcut.py`

Image loading, SLIC, feature extraction and the graph-cut solver are
external collaborators; the classifier is modelled with an optional
`predict_proba` (absent models a classifier whose `predict_proba` raises,
which the source catches in its `try/except`). -/

/-- The classifier interface `segment_image` consumes.  `predict_proba =
none` models a classifier without a usable probability output (calling it
raises, caught by the source). -/
structure Classifier (Ft Pr : Type*) where
  predict : Ft → List ℕ
  predict_proba : Option (Ft → Pr)
  classes_ : List ℕ

/-- The observable outcome of one `segment_image` call: the hard-label
segmentation and whether it was saved, the probability field and whether the
soft segmentation was saved, whether the missing-probability warning was
logged, whether graph-cut refinement ran, and the refined segmentation. -/
structure SegmentImageResult (Pr : Type*) where
  segm : List (List ℕ)
  saved_segm : Bool
  warned_no_proba : Bool
  proba : Option Pr
  saved_soft : Bool
  ran_graphcut : Bool
  segm_gc : List (List ℕ)

/-- `np.zeros(segm.shape)`. -/
def zerosLike (segm : List (List ℕ)) : List (List ℕ) :=
  segm.map (fun row => row.map (fun _ => 0))

/-- `labels[slic]`: index a per-superpixel label vector by the superpixel
map. -/
def indexBySlic (slic : List (List ℕ)) (labels : List ℕ) : List (List ℕ) :=
  slic.map (fun row => row.map (fun s => labels.getD s 0))

/-- `segment_image` of
`experiments_segmentation/run_segm_slic_classif_graphcut.py`, with the SLIC
map and features precomputed and the graph-cut call
(`segment_graph_cut_general`) supplied as an oracle `gc` from the
probability field to per-superpixel labels. -/
def segment_image {Ft Pr : Type*} (classif : Classifier Ft Pr)
    (slic : List (List ℕ)) (features : Ft) (gc_regul : ℚ)
    (gc : Pr → List ℕ) : SegmentImageResult Pr :=
  let labels := classif.predict features
  let segm := indexBySlic slic labels
  -- img_seg.convert('L').save(path_img): the hard segmentation is exported
  -- before the try/except block
  let saved_segm := true
  match classif.predict_proba with
  | some f =>
      let proba := f features
      -- np.savez_compressed(path_npz, segm_soft)
      if 0 < gc_regul then
        let labels_gc := gc proba
        let segm_gc0 := indexBySlic slic labels_gc
        -- relabel according classif classes: classif.classes_[segm_gc]
        let segm_gc := segm_gc0.map (fun row => row.map (fun v => classif.classes_.getD v 0))
        ⟨segm, saved_segm, false, some proba, true, true, segm_gc⟩
      else
        ⟨segm, saved_segm, false, some proba, true, false, zerosLike segm⟩
  | none =>
      -- `except: logging.warning(... not support predict_proba ...)`
      ⟨segm, saved_segm, true, none, false, false, zerosLike segm⟩

/-- **C6.** When the classifier lacks a usable probability output,
`segment_image` recovers locally: it logs the warning, still produces (and
has already saved) the hard-label segmentation `labels[slic]`, skips the
graph-cut refinement entirely (returning an all-zero refined map), and
returns normally. -/
theorem claim_C6 {Ft Pr : Type*} (classif : Classifier Ft Pr)
    (slic : List (List ℕ)) (features : Ft) (gc_regul : ℚ) (gc : Pr → List ℕ)
    (h : classif.predict_proba = none) :
    (segment_image classif slic features gc_regul gc).warned_no_proba = true ∧
    (segment_image classif slic features gc_regul gc).saved_segm = true ∧
    (segment_image classif slic features gc_regul gc).segm =
      indexBySlic slic (classif.predict features) ∧
    (segment_image classif slic features gc_regul gc).ran_graphcut = false ∧
    (segment_image classif slic features gc_regul gc).segm_gc =
      zerosLike (indexBySlic slic (classif.predict features)) := by
  simp [segment_image, h]

/-- A concrete classifier without probability output. -/
def wClassifier : Classifier Unit Unit :=
  ⟨fun _ => [1, 0], none, [0, 1]⟩

/-- Witness for C6 with a concrete probability-less classifier. -/
theorem claim_C6_witness :
    wClassifier.predict_proba = none ∧
    ((segment_image wClassifier [[0, 1]] () 1 (fun _ => [])).warned_no_proba = true ∧
     (segment_image wClassifier [[0, 1]] () 1 (fun _ => [])).saved_segm = true ∧
     (segment_image wClassifier [[0, 1]] () 1 (fun _ => [])).segm =
       indexBySlic [[0, 1]] (wClassifier.predict ()) ∧
     (segment_image wClassifier [[0, 1]] () 1 (fun _ => [])).ran_graphcut = false ∧
     (segment_image wClassifier [[0, 1]] () 1 (fun _ => [])).segm_gc =
       zerosLike (indexBySlic [[0, 1]] (wClassifier.predict ()))) :=
  ⟨rfl, claim_C6 wClassifier [[0, 1]] () 1 (fun _ => []) rfl⟩

/-! ## Boundary point extraction (`prepare_boundary_points_*`)

The `segmentation.descriptors` ray helpers (`compute_ray_features_segm_2d`,
`reconstruct_ray_features_2d`, `reduce_close_points`) and the morphological
`split_segm_background_foreground` are not part of the two embedded source
files' own logic (they live in external modules / are built from scipy and
skimage morphology calls); they are supplied as an oracle, constrained only
where the spec constrains them. -/

/-- Oracle for the external helpers used by the boundary-point strategies.
`compute_ray`'s last argument is the `edge` keyword (`none` for the
default); `reconstruct_ray`'s last argument is the third positional argument
of `reconstruct_ray_features_2d` (`prepare_boundary_points_ray_dist` passes
`0`, `prepare_boundary_points_ray_join` uses the default). -/
structure SegFtsOracle (Mask : Type*) where
  split_segm_background_foreground : Mask → ℚ → ℚ → Mask × Mask
  compute_ray : Mask → ℚ × ℚ → Option String → List ℚ
  reconstruct_ray : ℚ × ℚ → List ℚ → ℚ → List (ℚ × ℚ)
  reconstruct_smooth_default : ℚ
  reduce_close_points : List (ℚ × ℚ) → ℚ → List (ℚ × ℚ)

/-- No two points of the list lie within Euclidean distance `d` of each
other: every pairwise squared distance is at least `d ^ 2`. -/
def SepPoints (d : ℚ) (pts : List (ℚ × ℚ)) : Prop :=
  pts.Pairwise (fun p q => d ^ 2 ≤ sqDist p q)

/-- `prepare_boundary_points_ray_join` of
`segmentation/ellipse_fitting.py`: per center, the background rays and the
foreground rays (`edge='down'`) are clamped below by `min_diam`,
reconstructed to points and deduplicated *separately*; the two point sets
are then stacked with no further deduplication. -/
def prepare_boundary_points_ray_join {Mask : Type*} (O : SegFtsOracle Mask)
    (seg : Mask) (centers : List (ℚ × ℚ))
    (close_points min_diam sel_bg sel_fg : ℚ) : List (List (ℚ × ℚ)) :=
  let sp := O.split_segm_background_foreground seg sel_bg sel_fg
  centers.map (fun center =>
    let ray_bg := (O.compute_ray sp.1 center none).map
      (fun x => if x < min_diam then min_diam else x)
    let points_bg := O.reduce_close_points
      (O.reconstruct_ray center ray_bg O.reconstruct_smooth_default) close_points
    let ray_fc := (O.compute_ray sp.2 center (some "down")).map
      (fun x => if x < min_diam then min_diam else x)
    let points_fc := O.reduce_close_points
      (O.reconstruct_ray center ray_fc O.reconstruct_smooth_default) close_points
    points_bg ++ points_fc)

/-- `np.argmin(cdist(points, centers), axis=1)` entry for one point: the
first index of the minimal distance.  Squared distances give the same argmin
as Euclidean ones since `sqrt` is strictly monotone. -/
def close_center (points centers : List (ℚ × ℚ)) : List ℕ :=
  points.map (fun p => argminIdx (centers.map (sqDist p)))

/-- The grouping loop shared verbatim by `prepare_boundary_points_ray_dist`
and `prepare_boundary_points_close`: group `i` collects the points whose
nearest-center index is `i`, for `i` in `range(close_center.max() + 1)`. -/
def group_points (points centers : List (ℚ × ℚ)) : List (List (ℚ × ℚ)) :=
  let cc := close_center points centers
  (List.range (cc.foldr max 0 + 1)).map
    (fun i => ((points.zip cc).filter (fun pc => pc.2 == i)).map (fun pc => pc.1))

/-- `prepare_boundary_points_ray_dist` of `segmentation/ellipse_fitting.py`.
`points` is seeded with `np.array((0, np.asarray(centers).shape[1]))` --- a
1-D length-2 array `[0, 2]`, not an empty `(0, 2)`-shaped one --- which the
subsequent `np.vstack` treats as one extra row, so the artifact point
`(0, 2)` is prepended to the collected boundary points (it is visible in the
source's own doctest output). -/
def prepare_boundary_points_ray_dist {Mask : Type*} (O : SegFtsOracle Mask)
    (seg : Mask) (centers : List (ℚ × ℚ)) (close_points sel_bg sel_fg : ℚ) :
    List (List (ℚ × ℚ)) :=
  let sp := O.split_segm_background_foreground seg sel_bg sel_fg
  let points := ((0 : ℚ), (2 : ℚ)) ::
    (centers.map (fun center =>
      O.reduce_close_points
        (O.reconstruct_ray center (O.compute_ray sp.1 center none) 0)
        close_points)).flatten
  group_points points centers

/-- `prepare_boundary_points_close` of `segmentation/ellipse_fitting.py`,
with the composition of `segment_slic_img2d` and `filter_boundary_points`
(both resting on external superpixel machinery) supplied as the
`boundary_points` oracle producing the candidate interface points. -/
def prepare_boundary_points_close {Mask : Type*}
    (boundary_points : Mask → ℚ → ℚ → List (ℚ × ℚ)) (seg : Mask)
    (centers : List (ℚ × ℚ)) (sp_size rltv_compact : ℚ) :
    List (List (ℚ × ℚ)) :=
  group_points (boundary_points seg sp_size rltv_compact) centers

/-! ### Nearest-center assignment -/

lemma getD_map_range {α : Type*} (n : ℕ) (f : ℕ → α) (i : ℕ) (d : α) :
    ((List.range n).map f).getD i d = if i < n then f i else d := by
  rw [List.getD_eq_getElem?_getD, List.getElem?_map]
  by_cases h : i < n
  · rw [List.getElem?_range h]
    simp [h]
  · rw [List.getElem?_eq_none (by simpa using not_lt.mp h)]
    simp [h]

/-- `argminIdx` really is `np.argmin` with first-occurrence tie breaking: it
is a valid index of a nonempty list, attains the minimum, and every earlier
entry is strictly larger. -/
lemma argminIdx_spec (l : List ℚ) (h : l ≠ []) :
    argminIdx l < l.length ∧
    (∀ j < l.length, l.getD (argminIdx l) 0 ≤ l.getD j 0) ∧
    (∀ j < argminIdx l, l.getD j 0 > l.getD (argminIdx l) 0) := by
  induction l with
  | nil => exact absurd rfl h
  | cons x tl ih =>
    cases tl with
    | nil =>
      refine ⟨by simp [argminIdx], ?_, ?_⟩
      · intro j hj
        have : j = 0 := by simpa using Nat.lt_one_iff.mp (by simpa using hj)
        subst this
        exact le_refl _
      · intro j hj
        simp [argminIdx] at hj
    | cons y rest =>
      obtain ⟨ih1, ih2, ih3⟩ := ih (by simp)
      by_cases hlt : (y :: rest).getD (argminIdx (y :: rest)) 0 < x
      · have hval : argminIdx (x :: y :: rest) = argminIdx (y :: rest) + 1 := by
          simp only [argminIdx]
          rw [if_pos hlt]
        refine ⟨?_, ?_, ?_⟩
        · rw [hval]
          simpa using Nat.succ_lt_succ ih1
        · intro j hj
          rw [hval]
          cases j with
          | zero => simpa using hlt.le
          | succ k =>
            simp only [List.getD_cons_succ]
            exact ih2 k (by simpa using hj)
        · intro j hj
          rw [hval] at hj ⊢
          cases j with
          | zero => simpa using hlt
          | succ k =>
            simp only [List.getD_cons_succ]
            exact ih3 k (by simpa using hj)
      · have hval : argminIdx (x :: y :: rest) = 0 := by
          simp only [argminIdx]
          rw [if_neg hlt]
        have hxle : x ≤ (y :: rest).getD (argminIdx (y :: rest)) 0 := not_lt.mp hlt
        refine ⟨by simp [hval], ?_, ?_⟩
        · intro j hj
          rw [hval]
          cases j with
          | zero => exact le_refl _
          | succ k =>
            simp only [List.getD_cons_zero, List.getD_cons_succ]
            exact hxle.trans (ih2 k (by simpa using hj))
        · intro j hj
          rw [hval] at hj
          exact absurd hj (Nat.not_lt_zero j)

/-- Membership in group `i` of the shared grouping loop: the point comes
from the input list and its first-argmin nearest-center index is exactly
`i`. -/
lemma mem_group_points {points centers : List (ℚ × ℚ)} {i : ℕ} {p : ℚ × ℚ}
    (hp : p ∈ (group_points points centers).getD i []) :
    argminIdx (centers.map (sqDist p)) = i ∧ p ∈ points := by
  have hzip : points.zip (close_center points centers) =
      points.map (fun q => (q, argminIdx (centers.map (sqDist q)))) := by
    unfold close_center
    simpa using List.zip_map' id (fun q => argminIdx (centers.map (sqDist q))) points
  simp only [group_points] at hp
  rw [getD_map_range] at hp
  by_cases h : i < (close_center points centers).foldr max 0 + 1
  · rw [if_pos h] at hp
    obtain ⟨pc, hmem, rfl⟩ := List.mem_map.mp hp
    obtain ⟨hz, hbeq⟩ := List.mem_filter.mp hmem
    rw [hzip] at hz
    obtain ⟨q, hq, heq⟩ := List.mem_map.mp hz
    have h1 : q = pc.1 := congrArg Prod.fst heq
    have h2 : argminIdx (centers.map (sqDist q)) = pc.2 := congrArg Prod.snd heq
    refine ⟨?_, ?_⟩
    · rw [← h1, h2]
      simpa using hbeq
    · rw [← h1]
      exact hq
  · rw [if_neg h] at hp
    simp at hp

/-- "Assigned to its nearest center, ties broken by first-argmin" for a
point placed in group `i`: `i` is a valid center index, no center is
strictly closer than center `i`, and every center before `i` is strictly
farther. -/
def nearestFirst (centers : List (ℚ × ℚ)) (p : ℚ × ℚ) (i : ℕ) : Prop :=
  i < centers.length ∧
  (∀ j < centers.length, sqDist p (centers.getD i (0, 0)) ≤ sqDist p (centers.getD j (0, 0))) ∧
  ∀ j < i, sqDist p (centers.getD i (0, 0)) < sqDist p (centers.getD j (0, 0))

lemma getD_map_sqDist (centers : List (ℚ × ℚ)) (p : ℚ × ℚ) {j : ℕ}
    (hj : j < centers.length) :
    (centers.map (sqDist p)).getD j 0 = sqDist p (centers.getD j (0, 0)) := by
  rw [List.getD_eq_getElem?_getD, List.getElem?_map, List.getD_eq_getElem?_getD,
    List.getElem?_eq_getElem hj]
  rfl

/-- The argmin index over the centers' distances satisfies `nearestFirst`. -/
lemma argminIdx_nearestFirst (centers : List (ℚ × ℚ)) (p : ℚ × ℚ)
    (hc : centers ≠ []) :
    nearestFirst centers p (argminIdx (centers.map (sqDist p))) := by
  have hne : centers.map (sqDist p) ≠ [] := by
    simpa using hc
  obtain ⟨h1, h2, h3⟩ := argminIdx_spec (centers.map (sqDist p)) hne
  rw [List.length_map] at h1
  refine ⟨h1, ?_, ?_⟩
  · intro j hj
    have := h2 j (by simpa using hj)
    rwa [getD_map_sqDist centers p h1, getD_map_sqDist centers p hj] at this
  · intro j hj
    have := h3 j hj
    rwa [getD_map_sqDist centers p h1, getD_map_sqDist centers p (hj.trans h1)] at this

/-- Concrete oracle for the boundary-point counterexamples: both the
background and the foreground ray scan find the object boundary at distance
10 from the center (so both reconstruct the same boundary point), rays are
reconstructed along a single direction, and deduplication keeps the first
point of each already-sparse list. -/
def cexOracleRay : SegFtsOracle Unit where
  split_segm_background_foreground := fun _ _ _ => ((), ())
  compute_ray := fun _ _ _ => [10]
  reconstruct_ray := fun c rays _ => rays.map (fun d => (c.1, d))
  reconstruct_smooth_default := 0
  reduce_close_points := fun pts _ => pts.take 1

/-- `cexOracleRay`'s deduplication honours the spec contract: its output
never contains two points closer than the threshold. -/
lemma cexOracleRay_reduce_sep (pts : List (ℚ × ℚ)) (d : ℚ) :
    SepPoints d (cexOracleRay.reduce_close_points pts d) := by
  cases pts <;> simp [SepPoints, cexOracleRay]

/-- **C7 counterexample.** A run of `prepare_boundary_points_ray_join` in
which the (perfectly deduplicating) helpers produce the same boundary point
in the background-ray group and in the foreground-ray group: the returned
group contains that point twice (distance 0 < close_points = 5), because the
source stacks the two groups with no deduplication across them.  The
source's own doctest (which returns `[4.0, 16.0]` twice for one center)
exhibits the same behavior.  This falsifies the claim as stated. -/
theorem claim_C7_cex :
    prepare_boundary_points_ray_join cexOracleRay () [(0, 0)] 5 3 1 0 =
      [[(0, 10), (0, 10)]] ∧
    ¬SepPoints 5 [((0 : ℚ), (10 : ℚ)), (0, 10)] := by
  constructor
  · rfl
  · simp [SepPoints, sqDist]

/-- **C7 (amended).** Provided the external `reduce_close_points` honours
its deduplication contract, every group returned by
`prepare_boundary_points_ray_join` is the concatenation of a
background-derived and a foreground-derived point list, *each of which
separately* contains no two points closer than `close_points`; the
concatenation itself may pair a background point with an equal or nearby
foreground point. -/
theorem claim_C7 {Mask : Type*} (O : SegFtsOracle Mask)
    (hred : ∀ pts d, SepPoints d (O.reduce_close_points pts d))
    (seg : Mask) (centers : List (ℚ × ℚ))
    (close_points min_diam sel_bg sel_fg : ℚ) :
    ∀ g ∈ prepare_boundary_points_ray_join O seg centers close_points
        min_diam sel_bg sel_fg,
      ∃ bg fc, g = bg ++ fc ∧ SepPoints close_points bg ∧ SepPoints close_points fc := by
  intro g hg
  simp only [prepare_boundary_points_ray_join] at hg
  obtain ⟨c, _, rfl⟩ := List.mem_map.mp hg
  exact ⟨_, _, rfl, hred _ _, hred _ _⟩

/-- Witness for C7 (amended) at the concrete counterexample run. -/
theorem claim_C7_witness :
    (∀ pts d, SepPoints d (cexOracleRay.reduce_close_points pts d)) ∧
    ∃ bg fc, ([((0 : ℚ), (10 : ℚ)), (0, 10)]) = bg ++ fc ∧
      SepPoints 5 bg ∧ SepPoints 5 fc :=
  ⟨cexOracleRay_reduce_sep,
    claim_C7 cexOracleRay cexOracleRay_reduce_sep () [(0, 0)] 5 3 1 0
      [((0 : ℚ), (10 : ℚ)), (0, 10)]
      (show _ ∈ prepare_boundary_points_ray_join cexOracleRay () [(0, 0)] 5 3 1 0
        from List.mem_singleton.mpr rfl)⟩

/-- **C8 counterexample.** `prepare_boundary_points_ray_dist` returns the
artifact point `(0, 2)` (from `np.array((0, centers.shape[1]))` being
vstacked as a row) in the group of the single center `(50, 50)`, although it
is not a boundary point reconstructed from any center's ray features ---
those reconstruct only `(50, 10)` here.  The source's doctest shows the same
leading `[0.0, 2.0]` row.  This falsifies "every point returned ... is a
boundary point reconstructed from the ray features of some given center". -/
theorem claim_C8_cex :
    prepare_boundary_points_ray_dist cexOracleRay () [(50, 50)] 2 0 0 =
      [[(0, 2), (50, 10)]] ∧
    ((0 : ℚ), (2 : ℚ)) ∈
      (prepare_boundary_points_ray_dist cexOracleRay () [((50 : ℚ), (50 : ℚ))] 2 0 0).getD 0 [] ∧
    ∀ c ∈ [((50 : ℚ), (50 : ℚ))],
      ((0 : ℚ), (2 : ℚ)) ∉
        cexOracleRay.reconstruct_ray c (cexOracleRay.compute_ray () c none) 0 := by
  refine ⟨rfl, ?_, ?_⟩
  · exact List.mem_cons_self _ _
  · intro c hcm
    rw [List.mem_singleton] at hcm
    subst hcm
    norm_num [cexOracleRay, Prod.ext_iff]

/-- **C8 (amended).** Every point returned by
`prepare_boundary_points_ray_dist` is either the artifact point `(0, 2)` or
lies in the deduplicated reconstruction of some center's background rays,
and each point is placed in the group of its nearest center under Euclidean
distance with ties broken by the first (lowest-index) minimizing center; the
same nearest-center grouping holds for `prepare_boundary_points_close`,
whose points all come from its boundary-point source. -/
theorem claim_C8 {Mask : Type*} (O : SegFtsOracle Mask) (seg : Mask)
    (centers : List (ℚ × ℚ)) (close_points sel_bg sel_fg : ℚ)
    (boundary_points : Mask → ℚ → ℚ → List (ℚ × ℚ)) (sp_size rltv_compact : ℚ)
    (hc : centers ≠ []) :
    (∀ i p, p ∈ (prepare_boundary_points_ray_dist O seg centers close_points
        sel_bg sel_fg).getD i [] →
      nearestFirst centers p i ∧
      (p = ((0 : ℚ), (2 : ℚ)) ∨ ∃ c ∈ centers,
        p ∈ O.reduce_close_points
          (O.reconstruct_ray c (O.compute_ray
            (O.split_segm_background_foreground seg sel_bg sel_fg).1 c none) 0)
          close_points)) ∧
    (∀ i p, p ∈ (prepare_boundary_points_close boundary_points seg centers
        sp_size rltv_compact).getD i [] →
      nearestFirst centers p i ∧ p ∈ boundary_points seg sp_size rltv_compact) := by
  constructor
  · intro i p hp
    simp only [prepare_boundary_points_ray_dist] at hp
    obtain ⟨hargmin, hmem⟩ := mem_group_points hp
    refine ⟨hargmin ▸ argminIdx_nearestFirst centers p hc, ?_⟩
    rcases List.mem_cons.mp hmem with h | h
    · exact Or.inl h
    · right
      obtain ⟨l, hl, hpl⟩ := List.mem_flatten.mp h
      obtain ⟨c, hcm, rfl⟩ := List.mem_map.mp hl
      exact ⟨c, hcm, hpl⟩
  · intro i p hp
    simp only [prepare_boundary_points_close] at hp
    obtain ⟨hargmin, hmem⟩ := mem_group_points hp
    exact ⟨hargmin ▸ argminIdx_nearestFirst centers p hc, hmem⟩

/-- Witness for C8 (amended): the non-artifact point `(50, 10)` of the
counterexample run is grouped with its (single, hence nearest) center and
stems from that center's ray reconstruction. -/
theorem claim_C8_witness :
    (([((50 : ℚ), (50 : ℚ))] : List (ℚ × ℚ)) ≠ []) ∧
    (nearestFirst [((50 : ℚ), (50 : ℚ))] ((50 : ℚ), (10 : ℚ)) 0 ∧
     (((50 : ℚ), (10 : ℚ)) = ((0 : ℚ), (2 : ℚ)) ∨ ∃ c ∈ [((50 : ℚ), (50 : ℚ))],
       ((50 : ℚ), (10 : ℚ)) ∈ cexOracleRay.reduce_close_points
         (cexOracleRay.reconstruct_ray c (cexOracleRay.compute_ray
           (cexOracleRay.split_segm_background_foreground () 0 0).1 c none) 0) 2)) :=
  ⟨by simp,
    (claim_C8 cexOracleRay () [(50, 50)] 2 0 0 (fun _ _ _ => []) 1 1 (by simp)).1 0
      ((50 : ℚ), (10 : ℚ))
      (show _ ∈ (prepare_boundary_points_ray_dist cexOracleRay () [(50, 50)] 2 0 0).getD 0 []
        from List.mem_cons_of_mem _ (List.mem_singleton.mpr rfl))⟩

/-! ## `add_overlap_ellipse`

The rasterization `tl_visu.ellipse(..., shape=segm.shape)` is an external
drawing helper; it is supplied as an oracle from the ellipse parameters and
the canvas shape to the list of covered (in-shape) pixels.  Canvases are
row-major grids of labels. -/

/-- `np.sum(segm == lb)`. -/
def labelCount (segm : List (List ℕ)) (lb : ℕ) : ℕ :=
  (segm.map (fun row => (row.filter (fun v => v == lb)).length)).sum

/-- `np.sum(mask == 1)`: the number of canvas cells covered by the
rasterized ellipse (the mask array has the canvas shape, so only in-shape
pixels count). -/
def maskCount (segm : List (List ℕ)) (pix : List (ℕ × ℕ)) : ℕ :=
  ((List.range segm.length).map (fun r =>
    ((List.range ((segm.getD r []).length)).filter
      (fun c => decide ((r, c) ∈ pix))).length)).sum

/-- `np.sum(np.logical_and(segm == lb, mask == 1))`. -/
def overlapCount (segm : List (List ℕ)) (pix : List (ℕ × ℕ)) (lb : ℕ) : ℕ :=
  ((List.range segm.length).map (fun r =>
    ((List.range ((segm.getD r []).length)).filter
      (fun c => ((segm.getD r []).getD c 0 == lb) && decide ((r, c) ∈ pix))).length)).sum

/-- `np.max(segm)`. -/
def maxLabel (segm : List (List ℕ)) : ℕ :=
  (segm.map (fun row => row.foldr max 0)).foldr max 0

/-- The overlap-filter loop of `add_overlap_ellipse`: for each existing
label value, python computes `float(overlap) / float(min(sizes))` ---
raising `ZeroDivisionError` when `min(sizes)` is zero (e.g. a label value
below `np.max(segm)` occupying no pixel, or an empty mask) --- and returns
early (`True` = "return just the segment") when the ratio exceeds
`thr_overlap`. -/
def overlapLoop (segm : List (List ℕ)) (pix : List (ℕ × ℕ)) (thr_overlap : ℚ) :
    List ℕ → Except String Bool
  | [] => .ok false
  | lb :: rest =>
      if min (labelCount segm lb) (maskCount segm pix) = 0 then
        .error "ZeroDivisionError: float division by zero"
      else if thr_overlap <
          (overlapCount segm pix lb : ℚ) /
            (min (labelCount segm lb) (maskCount segm pix) : ℚ) then .ok true
      else overlapLoop segm pix thr_overlap rest

/-- `segm[mask == 1] = label`: set exactly the mask-covered cells to
`label`, keeping every other cell. -/
def paintMask (segm : List (List ℕ)) (pix : List (ℕ × ℕ)) (label : ℕ) :
    List (List ℕ) :=
  (List.range segm.length).map (fun r =>
    (List.range ((segm.getD r []).length)).map (fun c =>
      if (r, c) ∈ pix then label else (segm.getD r []).getD c 0))

/-- `add_overlap_ellipse` of `segmentation/ellipse_fitting.py`, with the
rasterizer as the `ellipse` oracle (params, height, width ↦ covered
pixels). -/
def add_overlap_ellipse {EP : Type*} (segm : List (List ℕ))
    (ellipse_params : Option EP) (label : ℕ)
    (ellipse : EP → ℕ → ℕ → List (ℕ × ℕ)) (thr_overlap : ℚ) :
    Except String (List (List ℕ)) :=
  match ellipse_params with
  | none => .ok segm
  | some ps =>
      let pix := ellipse ps segm.length ((segm.getD 0 []).length)
      -- filter overlapping ellipses: `for lb in range(1, int(np.max(segm) + 1))`
      match overlapLoop segm pix thr_overlap (List.range' 1 (maxLabel segm)) with
      | .error e => .error e
      | .ok true => .ok segm
      | .ok false => .ok (paintMask segm pix label)

lemma overlapLoop_true (segm : List (List ℕ)) (pix : List (ℕ × ℕ)) (thr : ℚ)
    (L : List ℕ) (hmin : ∀ lb ∈ L, 0 < min (labelCount segm lb) (maskCount segm pix))
    (hex : ∃ lb ∈ L, thr <
      (overlapCount segm pix lb : ℚ) /
        (min (labelCount segm lb) (maskCount segm pix) : ℚ)) :
    overlapLoop segm pix thr L = .ok true := by
  induction L with
  | nil => simp at hex
  | cons lb rest ih =>
    have h0 : ¬min (labelCount segm lb) (maskCount segm pix) = 0 :=
      Nat.pos_iff_ne_zero.mp (hmin lb (List.mem_cons_self _ _))
    simp only [overlapLoop]
    rw [if_neg h0]
    by_cases hr : thr <
        (overlapCount segm pix lb : ℚ) /
          (min (labelCount segm lb) (maskCount segm pix) : ℚ)
    · rw [if_pos hr]
    · rw [if_neg hr]
      refine ih (fun l hl => hmin l (List.mem_cons_of_mem _ hl)) ?_
      obtain ⟨l, hlmem, hlr⟩ := hex
      rcases List.mem_cons.mp hlmem with rfl | hmem
      · exact absurd hlr hr
      · exact ⟨l, hmem, hlr⟩

lemma overlapLoop_false (segm : List (List ℕ)) (pix : List (ℕ × ℕ)) (thr : ℚ)
    (L : List ℕ)
    (hall : ∀ lb ∈ L, 0 < min (labelCount segm lb) (maskCount segm pix) ∧
      ¬thr < (overlapCount segm pix lb : ℚ) /
        (min (labelCount segm lb) (maskCount segm pix) : ℚ)) :
    overlapLoop segm pix thr L = .ok false := by
  induction L with
  | nil => rfl
  | cons lb rest ih =>
    obtain ⟨hpos, hr⟩ := hall lb (List.mem_cons_self _ _)
    simp only [overlapLoop]
    rw [if_neg (Nat.pos_iff_ne_zero.mp hpos), if_neg hr]
    exact ih (fun l hl => hall l (List.mem_cons_of_mem _ hl))

lemma paintMask_getD (segm : List (List ℕ)) (pix : List (ℕ × ℕ)) (label : ℕ)
    {r c : ℕ} (hr : r < segm.length) (hc : c < (segm.getD r []).length) :
    ((paintMask segm pix label).getD r []).getD c 0 =
      if (r, c) ∈ pix then label else (segm.getD r []).getD c 0 := by
  unfold paintMask
  rw [getD_map_range, if_pos hr, getD_map_range, if_pos hc]

/-- **C9 counterexample.** A canvas whose labels are `{0, 2}` (label 1
occupies no pixel) and an ellipse fully overlapping the label-2 object
(overlap ratio `1 > thr_overlap = 1/2`): instead of returning the canvas
unchanged, `add_overlap_ellipse` raises `ZeroDivisionError` at `lb = 1`,
where `min(sizes) = 0`.  So the claim fails as stated. -/
theorem claim_C9_cex :
    add_overlap_ellipse [[0, 2], [2, 2]] (some ()) 3
        (fun _ _ _ => [(0, 1), (1, 0), (1, 1)]) (1 / 2) =
      .error "ZeroDivisionError: float division by zero" ∧
    (1 / 2 : ℚ) < (overlapCount [[0, 2], [2, 2]] [(0, 1), (1, 0), (1, 1)] 2 : ℚ) /
      (min (labelCount [[0, 2], [2, 2]] 2)
        (maskCount [[0, 2], [2, 2]] [(0, 1), (1, 0), (1, 1)]) : ℚ) := by
  constructor
  · rfl
  · have h1 : overlapCount [[0, 2], [2, 2]] [(0, 1), (1, 0), (1, 1)] 2 = 3 := rfl
    have h2 : labelCount [[0, 2], [2, 2]] 2 = 3 := rfl
    have h3 : maskCount [[0, 2], [2, 2]] [(0, 1), (1, 0), (1, 1)] = 3 := rfl
    rw [h1, h2, h3]
    norm_num

/-- **C9 (amended).** Provided every label value in `1..np.max(segm)`
occupies at least one pixel and the rasterized mask is nonempty (so
`min(sizes)` never vanishes and no `ZeroDivisionError` occurs), if some
existing object's overlap ratio (overlap divided by the smaller of the two
object sizes) exceeds `thr_overlap` then `add_overlap_ellipse` returns the
input canvas unchanged. -/
theorem claim_C9 {EP : Type*} (segm : List (List ℕ)) (ps : EP) (label : ℕ)
    (ellipse : EP → ℕ → ℕ → List (ℕ × ℕ)) (thr_overlap : ℚ)
    (pix : List (ℕ × ℕ))
    (hpix : pix = ellipse ps segm.length ((segm.getD 0 []).length))
    (hmin : ∀ lb ∈ List.range' 1 (maxLabel segm),
      0 < min (labelCount segm lb) (maskCount segm pix))
    (hex : ∃ lb ∈ List.range' 1 (maxLabel segm), thr_overlap <
      (overlapCount segm pix lb : ℚ) /
        (min (labelCount segm lb) (maskCount segm pix) : ℚ)) :
    add_overlap_ellipse segm (some ps) label ellipse thr_overlap = .ok segm := by
  simp only [add_overlap_ellipse, ← hpix]
  rw [overlapLoop_true segm pix thr_overlap _ hmin hex]

/-- Witness for C9 (amended): a gapless canvas with a single object fully
covered by the new ellipse pixel; the canvas is returned untouched. -/
theorem claim_C9_witness :
    (∀ lb ∈ List.range' 1 (maxLabel [[1, 1], [1, 0]]),
      0 < min (labelCount [[1, 1], [1, 0]] lb) (maskCount [[1, 1], [1, 0]] [(0, 0)])) ∧
    (∃ lb ∈ List.range' 1 (maxLabel [[1, 1], [1, 0]]), (1 / 2 : ℚ) <
      (overlapCount [[1, 1], [1, 0]] [(0, 0)] lb : ℚ) /
        (min (labelCount [[1, 1], [1, 0]] lb) (maskCount [[1, 1], [1, 0]] [(0, 0)]) : ℚ)) ∧
    add_overlap_ellipse [[1, 1], [1, 0]] (some ()) 5 (fun _ _ _ => [(0, 0)]) (1 / 2) =
      .ok [[1, 1], [1, 0]] := by
  have hmin : ∀ lb ∈ List.range' 1 (maxLabel [[1, 1], [1, 0]]),
      0 < min (labelCount [[1, 1], [1, 0]] lb) (maskCount [[1, 1], [1, 0]] [(0, 0)]) := by
    decide
  have hex : ∃ lb ∈ List.range' 1 (maxLabel [[1, 1], [1, 0]]), (1 / 2 : ℚ) <
      (overlapCount [[1, 1], [1, 0]] [(0, 0)] lb : ℚ) /
        (min (labelCount [[1, 1], [1, 0]] lb) (maskCount [[1, 1], [1, 0]] [(0, 0)]) : ℚ) := by
    refine ⟨1, by decide, ?_⟩
    have h1 : overlapCount [[1, 1], [1, 0]] [(0, 0)] 1 = 1 := rfl
    have h2 : labelCount [[1, 1], [1, 0]] 1 = 3 := rfl
    have h3 : maskCount [[1, 1], [1, 0]] [(0, 0)] = 1 := rfl
    rw [h1, h2, h3]
    norm_num
  exact ⟨hmin, hex,
    claim_C9 [[1, 1], [1, 0]] () 5 (fun _ _ _ => [(0, 0)]) (1 / 2) [(0, 0)] rfl hmin hex⟩

/-- **C10 counterexample.** A canvas with labels `{0, 2}` and an ellipse
whose overlap ratio with the (only) existing object, label 2, does not
exceed the threshold: the claim demands the ellipse pixels be painted, but
the source raises `ZeroDivisionError` at the empty label 1. -/
theorem claim_C10_cex :
    add_overlap_ellipse [[0, 2]] (some ()) 1 (fun _ _ _ => [(0, 0)]) 1 =
      .error "ZeroDivisionError: float division by zero" ∧
    ¬(1 : ℚ) < (overlapCount [[0, 2]] [(0, 0)] 2 : ℚ) /
      (min (labelCount [[0, 2]] 2) (maskCount [[0, 2]] [(0, 0)]) : ℚ) := by
  constructor
  · rfl
  · have h1 : overlapCount [[0, 2]] [(0, 0)] 2 = 0 := rfl
    have h2 : labelCount [[0, 2]] 2 = 1 := rfl
    have h3 : maskCount [[0, 2]] [(0, 0)] = 1 := rfl
    rw [h1, h2, h3]
    norm_num

/-- **C10 (amended).** `add_overlap_ellipse` returns the updated canvas
state (the in-place numpy mutation, made explicit): with `ellipse_params =
None` the input is returned untouched; otherwise, provided `min(sizes)` is
positive for every label value in `1..np.max(segm)` (no `ZeroDivisionError`)
and no overlap ratio exceeds the threshold, the result sets exactly the
pixels covered by the rasterized (shape-clipped) ellipse to `label` and
keeps every other pixel's previous value. -/
theorem claim_C10 {EP : Type*} (ellipse : EP → ℕ → ℕ → List (ℕ × ℕ)) :
    (∀ (segm : List (List ℕ)) (label : ℕ) (thr_overlap : ℚ),
      add_overlap_ellipse segm (none : Option EP) label ellipse thr_overlap =
        .ok segm) ∧
    (∀ (segm : List (List ℕ)) (ps : EP) (label : ℕ) (thr_overlap : ℚ)
        (pix : List (ℕ × ℕ)),
      pix = ellipse ps segm.length ((segm.getD 0 []).length) →
      (∀ lb ∈ List.range' 1 (maxLabel segm),
        0 < min (labelCount segm lb) (maskCount segm pix) ∧
        ¬thr_overlap < (overlapCount segm pix lb : ℚ) /
          (min (labelCount segm lb) (maskCount segm pix) : ℚ)) →
      add_overlap_ellipse segm (some ps) label ellipse thr_overlap =
        .ok (paintMask segm pix label) ∧
      ∀ r c, r < segm.length → c < (segm.getD r []).length →
        ((paintMask segm pix label).getD r []).getD c 0 =
          if (r, c) ∈ pix then label else (segm.getD r []).getD c 0) := by
  constructor
  · intro segm label thr
    rfl
  · intro segm ps label thr pix hpix hall
    refine ⟨?_, fun r c hr hc => paintMask_getD segm pix label hr hc⟩
    simp only [add_overlap_ellipse, ← hpix]
    rw [overlapLoop_false segm pix thr _ hall]

/-- Witness for C10 at a concrete all-background canvas: the `None` case
returns the canvas itself, and the painting case sets exactly the single
ellipse pixel. -/
theorem claim_C10_witness :
    add_overlap_ellipse [[0, 0]] (none : Option Unit) 1 (fun _ _ _ => [(0, 0)]) 1 =
      .ok [[0, 0]] ∧
    (add_overlap_ellipse [[0, 0]] (some ()) 1 (fun _ _ _ => [(0, 0)]) 1 =
      .ok (paintMask [[0, 0]] [(0, 0)] 1) ∧
     ∀ r c, r < ([[0, 0]] : List (List ℕ)).length →
       c < (([[0, 0]] : List (List ℕ)).getD r []).length →
       ((paintMask [[0, 0]] [(0, 0)] 1).getD r []).getD c 0 =
         if (r, c) ∈ [((0 : ℕ), (0 : ℕ))] then 1
         else (([[0, 0]] : List (List ℕ)).getD r []).getD c 0) := by
  have hall : ∀ lb ∈ List.range' 1 (maxLabel [[0, 0]]),
      0 < min (labelCount [[0, 0]] lb) (maskCount [[0, 0]] [(0, 0)]) ∧
      ¬(1 : ℚ) < (overlapCount [[0, 0]] [(0, 0)] lb : ℚ) /
        (min (labelCount [[0, 0]] lb) (maskCount [[0, 0]] [(0, 0)]) : ℚ) := by
    intro lb hlb
    rw [show List.range' 1 (maxLabel [[0, 0]]) = [] from rfl] at hlb
    cases hlb
  exact ⟨(claim_C10 (fun _ _ _ => [(0, 0)])).1 [[0, 0]] 1 1,
    (claim_C10 (fun _ _ _ => [(0, 0)])).2 [[0, 0]] () 1 1 [(0, 0)] rfl hall⟩
